import Mathlib

/-!
Formal model of the OrbitBharat CME-prediction runtime
(`src/ml_pipeline/data_loader.py`, `src/ml_pipeline/predictor.py`,
`src/api/server.py`).

The embedding is shallow: pandas frames become lists of rows whose cells are
`Option ℚ` (`none` plays the role of a pandas `NaN` / missing cell), machine
floats become exact rationals, wall-clock datetimes become natural-number
second counts, and network fetches become explicit parameters (an
unreachable endpoint is the `none` / empty-table parameter value, exactly the
value the source's `except` handlers produce).  The scoring model is opaque
in the source, so validation is parameterised by the list of probabilities it
returns.
-/

namespace OrbitBharat

/-! ### Alert classifier — `CMEPredictor._get_alert_level` -/

/-- The five alert levels returned by `_get_alert_level`. -/
inductive AlertLevel where
  | NONE
  | LOW
  | MODERATE
  | HIGH
  | EXTREME
deriving DecidableEq, Repr

/-- `self.thresholds['low']` in `CMEPredictor.__init__`. -/
def thresholdLow : ℚ := 3/10

/-- `self.thresholds['moderate']`. -/
def thresholdModerate : ℚ := 1/2

/-- `self.thresholds['high']`. -/
def thresholdHigh : ℚ := 7/10

/-- `self.thresholds['extreme']`. -/
def thresholdExtreme : ℚ := 9/10

/-- `CMEPredictor._get_alert_level`, predictor.py lines 229-239: the
thresholds are tested high to low with `>=` comparisons. -/
def getAlertLevel (probability : ℚ) : AlertLevel :=
  if thresholdExtreme ≤ probability then .EXTREME
  else if thresholdHigh ≤ probability then .HIGH
  else if thresholdModerate ≤ probability then .MODERATE
  else if thresholdLow ≤ probability then .LOW
  else .NONE

/-! ### Single-flight background-validation scheduler —
`CMEPredictor._launch_bg_validation` and the worker's `finally` block.

Each Python-level call is one atomic step of a transition system: a
refresh trigger (`_launch_bg_validation`, also reached from the API route
`/api/accuracy/refresh`) and a worker completing its `finally` block that
clears `_validation_running`.  `inFlight` counts live worker threads. -/

structure SchedulerState where
  running : Bool
  inFlight : ℕ
deriving DecidableEq, Repr

/-- Initial state: `_validation_running = False`, no worker thread. -/
def initScheduler : SchedulerState := ⟨false, 0⟩

/-- `_launch_bg_validation` (predictor.py lines 290-317): early-returns when
`_validation_running` is already set, otherwise sets the flag and starts one
worker thread. -/
def launchBgValidation (s : SchedulerState) : SchedulerState :=
  if s.running then s else ⟨true, s.inFlight + 1⟩

/-- The worker's `finally` block: clears `_validation_running`; the thread
terminates. -/
def workerFinish (s : SchedulerState) : SchedulerState :=
  ⟨false, s.inFlight - 1⟩

/-- One atomic event: either a refresh trigger, or a live worker finishing. -/
inductive SchedStep : SchedulerState → SchedulerState → Prop where
  | trigger (s : SchedulerState) : SchedStep s (launchBgValidation s)
  | finish (s : SchedulerState) : 0 < s.inFlight → SchedStep s (workerFinish s)

/-- States reachable from the freshly constructed predictor. -/
inductive SchedReachable : SchedulerState → Prop where
  | init : SchedReachable initScheduler
  | step {s s' : SchedulerState} :
      SchedReachable s → SchedStep s s' → SchedReachable s'

/-! ### Series aligner — `DSCOVRDataLoader.get_realtime_data`

A parsed NOAA table is a list of `(timestamp, row)` pairs with cells in
`Option ℚ` (`none` = `NaN` after `pd.to_numeric(..., errors='coerce')`).
An unreachable endpoint parses to the empty table, exactly as
`_fetch_json` returning `None` feeds `_parse_plasma_data` /
`_parse_mag_data` which return empty frames. -/

/-- One row of the parsed plasma table (`_parse_plasma_data`). -/
structure PlasmaRow where
  density : Option ℚ
  speed : Option ℚ
  temperature : Option ℚ
deriving DecidableEq, Repr

/-- One row of the parsed magnetometer table (`_parse_mag_data`). -/
structure MagRow where
  bxGsm : Option ℚ
  byGsm : Option ℚ
  bzGsm : Option ℚ
  bt : Option ℚ
deriving DecidableEq, Repr

/-- One row of the combined frame returned by `get_realtime_data`
(columns `speed, density, temperature, bz, bt, beta`).  A column that the
source frame lacks (e.g. `bz` when the magnetometer table was empty) is
modelled as an all-`none` column. -/
structure SeriesRow where
  speed : Option ℚ
  density : Option ℚ
  temperature : Option ℚ
  bz : Option ℚ
  bt : Option ℚ
  beta : Option ℚ
deriving DecidableEq, Repr

/-- IEEE-style value lattice for the numpy expression computing `beta`:
finite, NaN, or a signed infinity. -/
inductive NFloat where
  | fin (q : ℚ)
  | nan
  | pinf
  | ninf
deriving DecidableEq, Repr

/-- The physical constant `4.03e-11` of data_loader.py line 159. -/
def betaConstant : ℚ := 403 / 10000000000000

/-- The raw numpy value of `4.03e-11 * density * temperature / bt**2` for
one row: a missing operand gives NaN; division of a nonzero numerator by
zero gives a signed infinity; `0/0` gives NaN. -/
def betaRaw (density temperature bt : Option ℚ) : NFloat :=
  match density, temperature, bt with
  | some d, some t, some b =>
    if b = 0 then
      if d * t = 0 then .nan
      else if 0 < d * t then .pinf
      else .ninf
    else .fin (betaConstant * d * t / (b * b))
  | _, _, _ => .nan

/-- `df['beta'].replace([np.inf, -np.inf], np.nan)`, line 160. -/
def replaceInfWithNan : NFloat → NFloat
  | .pinf => .nan
  | .ninf => .nan
  | x => x

/-- A NaN float stored in a frame is a missing cell. -/
def toCell : NFloat → Option ℚ
  | .fin q => some q
  | _ => none

/-- The `beta` cell of one joined row, lines 157-162. -/
def betaCell (density temperature bt : Option ℚ) : Option ℚ :=
  toCell (replaceInfWithNan (betaRaw density temperature bt))

/-- The sorted, deduplicated union of the two time indexes — the row index
of `plasma_df.join(mag_df, how='outer')`. -/
def joinTimestamps (plasma : List (ℕ × PlasmaRow)) (mag : List (ℕ × MagRow)) :
    List ℕ :=
  List.insertionSort (· ≤ ·) ((plasma.map Prod.fst ++ mag.map Prod.fst).dedup)

/-- Index lookup in a parsed table (time indexes are duplicate-free). -/
def lookupRow {α : Type} (l : List (ℕ × α)) (t : ℕ) : Option α :=
  (l.find? (fun r => r.1 == t)).map Prod.snd

/-- The joined row at timestamp `t`: the side that lacks the timestamp
contributes `none` cells, then `beta` is computed from the row's own
`density`, `temperature` and `bt` cells. -/
def joinedRowAt (plasma : List (ℕ × PlasmaRow)) (mag : List (ℕ × MagRow))
    (t : ℕ) : SeriesRow :=
  let pr := lookupRow plasma t
  let mr := lookupRow mag t
  let density := pr.bind (·.density)
  let temperature := pr.bind (·.temperature)
  let bt := mr.bind (·.bt)
  { speed := pr.bind (·.speed)
    density := density
    temperature := temperature
    bz := mr.bind (·.bzGsm)
    bt := bt
    beta := betaCell density temperature bt }

/-- The outer-joined frame with the derived `beta` column, before the
forward fill (`df` just after lines 146-174). -/
def joinSeries (plasma : List (ℕ × PlasmaRow)) (mag : List (ℕ × MagRow)) :
    List SeriesRow :=
  (joinTimestamps plasma mag).map (joinedRowAt plasma mag)

/-- One column of `df.ffill(limit=limit)`: a missing cell is filled with the
last real value above it as long as at most `limit` consecutive missing
cells have been filled from it. `last` is the carried value, `gap` the
number of missing cells seen since it. -/
def ffillColAux (limit : ℕ) (last : Option ℚ) (gap : ℕ) :
    List (Option ℚ) → List (Option ℚ)
  | [] => []
  | none :: rest =>
      (if gap < limit then last else none) :: ffillColAux limit last (gap + 1) rest
  | some v :: rest => some v :: ffillColAux limit (some v) 0 rest

/-- `column.ffill(limit=limit)`. -/
def ffillCol (limit : ℕ) (col : List (Option ℚ)) : List (Option ℚ) :=
  ffillColAux limit none 0 col

/-- Rebuild rows from the six forward-filled columns. -/
def zipRows : List (Option ℚ) → List (Option ℚ) → List (Option ℚ) →
    List (Option ℚ) → List (Option ℚ) → List (Option ℚ) → List SeriesRow
  | s :: ss, d :: ds, t :: ts, z :: zs, b :: bs, e :: es =>
      ⟨s, d, t, z, b, e⟩ :: zipRows ss ds ts zs bs es
  | _, _, _, _, _, _ => []

/-- `df = df.ffill(limit=5)`, data_loader.py line 177 — applied per column,
including the derived `beta` column. -/
def ffillSeriesLimited (rows : List SeriesRow) : List SeriesRow :=
  zipRows (ffillCol 5 (rows.map (·.speed)))
    (ffillCol 5 (rows.map (·.density)))
    (ffillCol 5 (rows.map (·.temperature)))
    (ffillCol 5 (rows.map (·.bz)))
    (ffillCol 5 (rows.map (·.bt)))
    (ffillCol 5 (rows.map (·.beta)))

/-- The full aligner pipeline of `get_realtime_data` on non-empty input:
outer join, derived `beta`, then the limit-5 forward fill. -/
def alignSeries (plasma : List (ℕ × PlasmaRow)) (mag : List (ℕ × MagRow)) :
    List SeriesRow :=
  ffillSeriesLimited (joinSeries plasma mag)

/-! ### Telemetry cache — the TTL cache wrapped around the aligner. -/

/-- The two parsed upstream tables of one fetch round (one call pair to
`_fetch_json`).  An unreachable provider yields an empty table. -/
structure FetchData where
  plasma : List (ℕ × PlasmaRow)
  mag : List (ℕ × MagRow)
deriving DecidableEq, Repr

/-- `self._cache` together with `self._cache_timestamp`: key, frame, and
the `datetime.now()` (in seconds) at which it was stored.  Insertion
prepends; lookup takes the most recent entry for a key, which matches dict
assignment semantics. -/
abbrev TelemetryCache := List (String × List SeriesRow × ℕ)

/-- `self.cache_ttl = timedelta(minutes=5)`, in seconds. -/
def cacheTTL : ℕ := 300

/-- `cache_key = f"combined_{days}d"`. -/
def cacheKey (days : ℕ) : String :=
  "combined_" ++ toString days ++ "d"

/-- `self._cache[key]` plus its timestamp, if present. -/
def cacheLookup (c : TelemetryCache) (k : String) :
    Option (List SeriesRow × ℕ) :=
  (c.find? (fun e => e.1 == k)).map Prod.snd

/-- Result of one `get_realtime_data` call: the returned frame, the cache
state afterwards, and whether the upstream loader (the `_fetch_json` pair)
was invoked. -/
structure GetResult where
  df : List SeriesRow
  cache : TelemetryCache
  fetched : Bool
deriving DecidableEq, Repr

/-- `DSCOVRDataLoader.get_realtime_data` (lines 113-184) with
`cache_enabled = True` (the constructor default): serve a fresh cache entry
without fetching; otherwise fetch the endpoint pair selected by `days`,
return an empty frame WITHOUT caching when both tables are empty, and
otherwise align, cache and return. -/
def getRealtimeData (c : TelemetryCache) (now days : ℕ)
    (fetch1d fetch7d : FetchData) : GetResult :=
  let key := cacheKey days
  let fetched := if days ≤ 1 then fetch1d else fetch7d
  let doFetch : GetResult :=
    if fetched.plasma = [] ∧ fetched.mag = [] then
      ⟨[], c, true⟩
    else
      let df := alignSeries fetched.plasma fetched.mag
      ⟨df, (key, df, now) :: c, true⟩
  match cacheLookup c key with
  | some (df, ts) => if now - ts < cacheTTL then ⟨df, c, false⟩ else doFetch
  | none => doFetch

/-! ### Window assembler — `DSCOVRDataLoader.prepare_model_input` -/

/-- Python `a if a is not None else b` on cells, i.e. one forward-fill
step. -/
def orElseCell (a b : Option ℚ) : Option ℚ :=
  match a with
  | some v => some v
  | none => b

/-- Fill every missing cell of `r` from the carried row `last`. -/
def mergeRow (r last : SeriesRow) : SeriesRow :=
  { speed := orElseCell r.speed last.speed
    density := orElseCell r.density last.density
    temperature := orElseCell r.temperature last.temperature
    bz := orElseCell r.bz last.bz
    bt := orElseCell r.bt last.bt
    beta := orElseCell r.beta last.beta }

/-- Unlimited per-column forward fill (`df.ffill()`), threading the carried
row. -/
def ffillRows (last : SeriesRow) : List SeriesRow → List SeriesRow
  | [] => []
  | r :: rest =>
      let f := mergeRow r last
      f :: ffillRows f rest

/-- The all-missing row. -/
def noneRow : SeriesRow := ⟨none, none, none, none, none, none⟩

/-- `df_window.ffill().bfill()` (data_loader.py line 216): a backward fill
is a forward fill of the reversed frame. -/
def fillSeries (rows : List SeriesRow) : List SeriesRow :=
  (ffillRows noneRow ((ffillRows noneRow rows).reverse)).reverse

/-- `prepare_model_input` up to (and excluding) normalisation
(data_loader.py lines 197-216): error on an empty frame; keep the last
`w` rows; if fewer than `w` remain, prepend copies of the LAST row of the
window (`last_row = df_window.iloc[-1:]`, line 208); then nearest fill. -/
def prepareWindowRaw (df : List SeriesRow) (w : ℕ) :
    Except String (List SeriesRow) :=
  if df = [] then .error "No data available from DSCOVR"
  else
    let window := df.drop (df.length - w)
    let padded :=
      if window.length < w then
        (match window.getLast? with
         | some r => List.replicate (w - window.length) r
         | none => []) ++ window
      else window
    .ok (fillSeries padded)

/-- The static per-channel normalisation of lines 219-233, applied
cell-wise (a NaN cell normalises to NaN). -/
def normalizeRow (r : SeriesRow) : SeriesRow :=
  { speed := r.speed.map (fun v => (v - 400) / 100)
    density := r.density.map (fun v => (v - 5) / 5)
    temperature := r.temperature.map (fun v => (v - 100000) / 50000)
    bz := r.bz.map (fun v => (v - 0) / 5)
    bt := r.bt.map (fun v => (v - 5) / 3)
    beta := r.beta.map (fun v => (v - 1) / 1) }

/-- `prepare_model_input` with `normalize=True`. -/
def prepareModelInput (df : List SeriesRow) (w : ℕ) :
    Except String (List SeriesRow) :=
  (prepareWindowRaw df w).map (List.map normalizeRow)

/-! ### Accuracy validator — `CMEPredictor._run_validation`,
`_compute_fallback_metrics`, `_compute_auc`, and the background worker.

The scoring model is an external collaborator, so both validation paths are
parameterised by the probability list `probs` that `_batch_predict` returns
(one entry per scenario window, in order). -/

/-- Count of elements satisfying a boolean predicate — `.sum()` of a numpy
boolean mask. -/
def countB {α : Type} (p : α → Bool) : List α → ℕ
  | [] => 0
  | x :: rest => (if p x then 1 else 0) + countB p rest

/-- The four confusion-matrix cells. -/
structure Counts where
  tp : ℕ
  fp : ℕ
  tn : ℕ
  fn : ℕ
deriving DecidableEq, Repr

/-- Lines 490-493 / 597-600: each scored window is `(label, prediction)`. -/
def confusionCounts (labels preds : List Bool) : Counts :=
  let pairs := labels.zip preds
  { tp := countB (fun x => x.1 && x.2) pairs
    fp := countB (fun x => !x.1 && x.2) pairs
    tn := countB (fun x => !x.1 && !x.2) pairs
    fn := countB (fun x => x.1 && !x.2) pairs }

/-- `y_pred = (probs >= 0.5).astype(int)`. -/
def thresholdPreds (probs : List ℚ) : List Bool :=
  probs.map (fun p => decide ((1 : ℚ)/2 ≤ p))

/-! #### AUC — `CMEPredictor._compute_auc` (lines 541-567) -/

/-- Number of positives whose score clears the threshold. -/
def tpAt (pts : List (Bool × ℚ)) (θ : ℚ) : ℕ :=
  countB (fun x => x.1 && decide (θ ≤ x.2)) pts

/-- Number of negatives whose score clears the threshold. -/
def fpAt (pts : List (Bool × ℚ)) (θ : ℚ) : ℕ :=
  countB (fun x => !x.1 && decide (θ ≤ x.2)) pts

/-- `n_pos = y_sorted.sum()`. -/
def nPos (pts : List (Bool × ℚ)) : ℕ := countB (fun x => x.1) pts

/-- `n_neg = len(y_sorted) - n_pos`. -/
def nNeg (pts : List (Bool × ℚ)) : ℕ := countB (fun x => !x.1) pts

/-- `np.unique(s_sorted)[::-1]`: the distinct score values, descending. -/
def aucThresholds (pts : List (Bool × ℚ)) : List ℚ :=
  (List.insertionSort (· ≤ ·) ((pts.map Prod.snd).dedup)).reverse

/-- Running state of the threshold sweep: `tpr_prev`, `fpr_prev`, `auc`. -/
structure SweepState where
  tpr : ℚ
  fpr : ℚ
  auc : ℚ
deriving DecidableEq, Repr

/-- The `for thresh in thresholds` loop body, lines 557-564. -/
def aucSweep (pts : List (Bool × ℚ)) : List ℚ → SweepState → SweepState
  | [], st => st
  | θ :: rest, st =>
      let tpr : ℚ := (tpAt pts θ : ℚ) / (nPos pts : ℚ)
      let fpr : ℚ := (fpAt pts θ : ℚ) / (nNeg pts : ℚ)
      aucSweep pts rest
        ⟨tpr, fpr, st.auc + (fpr - st.fpr) * (tpr + st.tpr) / 2⟩

/-- `_compute_auc`: 0.5 on a degenerate label set, otherwise the trapezoidal
sweep plus the closing segment to `(1, 1)` (line 566). -/
def computeAuc (pts : List (Bool × ℚ)) : ℚ :=
  if nPos pts = 0 ∨ nNeg pts = 0 then 1/2
  else
    let st := aucSweep pts (aucThresholds pts) ⟨0, 0, 0⟩
    st.auc + (1 - st.fpr) * (1 + st.tpr) / 2

/-! #### The historical catalog and the two validation paths -/

/-- `_HISTORICAL_CME_CATALOG`: decade start year → estimated event count. -/
def historicalCatalog : List (ℕ × ℕ) :=
  [(1850, 120), (1860, 180), (1870, 160), (1880, 140), (1890, 200),
   (1900, 160), (1910, 190), (1920, 170), (1930, 250), (1940, 290),
   (1950, 380), (1960, 280), (1970, 310), (1980, 420), (1990, 520),
   (2000, 1340), (2010, 1280), (2020, 980)]

/-- `_TOTAL_HISTORICAL_EVENTS = sum(_HISTORICAL_CME_CATALOG.values())`. -/
def totalHistoricalEvents : ℕ := (historicalCatalog.map Prod.snd).sum

/-- Sum of the catalog counts whose decade satisfies `p`. -/
def catalogSum (p : ℕ → Bool) : ℕ :=
  ((historicalCatalog.filter (fun d => p d.1)).map Prod.snd).sum

/-- An opaque DONKI CME event record. -/
structure DonkiEvent where
  payload : String
deriving DecidableEq, Repr

/-- `_fetch_donki_cme_events` (lines 344-363): `response = none` models an
unreachable endpoint (request raised, or a non-ok / non-list reply) — the
handler absorbs it and the function returns the empty list. -/
def fetchDonkiCmeEvents (response : Option (List DonkiEvent)) :
    List DonkiEvent :=
  response.getD []

/-- `MAX_SAMPLES = 3000` (per class). -/
def maxSamples : ℕ := 3000

/-- Positive-scenario count for one era bucket, line 471:
`max(20, int(MAX_SAMPLES * era_count / total_catalog))`. -/
def eraSampleCount (eraCount totalCatalog : ℕ) : ℕ :=
  max 20 (maxSamples * eraCount / totalCatalog)

/-- The three era buckets of `_run_validation` (lines 460-464). -/
def carringtonCount : ℕ := catalogSum (fun y => y < 1900)

/-- Catalog events of decades 1900-1995. -/
def classicCount : ℕ := catalogSum (fun y => 1900 ≤ y && y < 1996)

/-- Catalog events of decades 1996 onwards. -/
def modernCount : ℕ := catalogSum (fun y => 1996 ≤ y)

/-- `total_catalog = sum(b[1] for b in era_buckets)`. -/
def totalCatalogCount : ℕ := carringtonCount + classicCount + modernCount

/-- `n_positive` of the normal path: the era-proportioned positive
scenarios actually generated. -/
def validationNPositive : ℕ :=
  eraSampleCount carringtonCount totalCatalogCount +
    eraSampleCount classicCount totalCatalogCount +
    eraSampleCount modernCount totalCatalogCount

/-- `y_true` of the normal path: positives first, then an equal number of
quiet negatives. -/
def validationLabels : List Bool :=
  List.replicate validationNPositive true ++
    List.replicate validationNPositive false

/-- The provenance note of the normal path (lines 521-526). -/
def validationNote : String :=
  "Validated on synthetic solar-wind windows proportionally sampled across 1850-2026 (Carrington-era, pre-space-age, modern). DONKI catalog anchors 2013-present; earlier decades estimated from sunspot records and geomagnetic storm catalogs."

/-- The provenance note of the fallback path (line 623). -/
def fallbackNote : String :=
  "Fallback metrics (DONKI unreachable) — using historical catalog only"

/-- The report dict published into the accuracy cache.  The `round(..., k)`
display rounding of the source is not modelled; the rational fields hold the
exact pre-rounding values. -/
structure AccuracyReport where
  accuracy : ℚ
  precisionVal : ℚ
  recallVal : ℚ
  f1Score : ℚ
  aucRoc : ℚ
  validationPeriod : String
  totalEventsTested : ℕ
  historicalCmeCatalog : ℕ
  donkiLiveEvents : ℕ
  truePositives : ℕ
  falsePositives : ℕ
  trueNegatives : ℕ
  falseNegatives : ℕ
  note : String
deriving DecidableEq, Repr

/-- Metric derivation shared verbatim by both paths (lines 495-499 and
602-606): zero-denominator guards via `max(_, 1)` and `max(_, 1e-6)`. -/
def deriveMetrics (c : Counts) (labels : List Bool) (probs : List ℚ) :
    ℚ × ℚ × ℚ × ℚ × ℚ :=
  let accuracy : ℚ :=
    ((c.tp : ℚ) + c.tn) / ((max (c.tp + c.tn + c.fp + c.fn) 1 : ℕ) : ℚ) * 100
  let precisionVal : ℚ := (c.tp : ℚ) / ((max (c.tp + c.fp) 1 : ℕ) : ℚ) * 100
  let recallVal : ℚ := (c.tp : ℚ) / ((max (c.tp + c.fn) 1 : ℕ) : ℚ) * 100
  let f1 : ℚ :=
    2 * precisionVal * recallVal / max (precisionVal + recallVal) (1/1000000)
  (accuracy, precisionVal, recallVal, f1, computeAuc (labels.zip probs))

/-- `_run_validation` (lines 429-527), parameterised by the DONKI response
and the model probabilities.  `total_events_tested` is `tp+fp+tn+fn`
(line 508). -/
def runValidation (response : Option (List DonkiEvent)) (probs : List ℚ) :
    AccuracyReport :=
  let donkiCount := (fetchDonkiCmeEvents response).length
  let preDonkiTotal := catalogSum (fun y => y < 2010)
  let catalog2010s := catalogSum (fun y => y == 2010)
  let catalog2020s := catalogSum (fun y => y == 2020)
  let totalHistorical := preDonkiTotal + max catalog2010s donkiCount + catalog2020s
  let labels := validationLabels
  let preds := thresholdPreds probs
  let c := confusionCounts labels preds
  let m := deriveMetrics c labels probs
  { accuracy := m.1
    precisionVal := m.2.1
    recallVal := m.2.2.1
    f1Score := m.2.2.2.1
    aucRoc := m.2.2.2.2
    validationPeriod := "1850-2026"
    totalEventsTested := c.tp + c.fp + c.tn + c.fn
    historicalCmeCatalog := totalHistorical
    donkiLiveEvents := donkiCount
    truePositives := c.tp
    falsePositives := c.fp
    trueNegatives := c.tn
    falseNegatives := c.fn
    note := validationNote }

/-- The fixed fallback era buckets of `_compute_fallback_metrics`
(lines 578-582). -/
def fallbackNPositive : ℕ := 200 + 300 + 500

/-- `y_true` of the fallback path. -/
def fallbackLabels : List Bool :=
  List.replicate fallbackNPositive true ++
    List.replicate fallbackNPositive false

/-- `_compute_fallback_metrics` (lines 569-624).  Note line 615:
`'total_events_tested': len(y_true) * 2`, where `y_true` already contains
BOTH classes. -/
def fallbackMetrics (probs : List ℚ) : AccuracyReport :=
  let labels := fallbackLabels
  let preds := thresholdPreds probs
  let c := confusionCounts labels preds
  let m := deriveMetrics c labels probs
  { accuracy := m.1
    precisionVal := m.2.1
    recallVal := m.2.2.1
    f1Score := m.2.2.2.1
    aucRoc := m.2.2.2.2
    validationPeriod := "1850-2026"
    totalEventsTested := fallbackLabels.length * 2
    historicalCmeCatalog := totalHistoricalEvents
    donkiLiveEvents := 0
    truePositives := c.tp
    falsePositives := c.fp
    trueNegatives := c.tn
    falseNegatives := c.fn
    note := fallbackNote }

/-- The worker body of `_launch_bg_validation` (lines 296-314): publish the
normal-path report; if that run raised, publish the fallback report; if the
fallback also raised, leave the previous cache value in place.  The worker
itself never propagates an error. -/
def bgValidationWorker (run fallback : Except String AccuracyReport)
    (previous : AccuracyReport) : AccuracyReport :=
  match run with
  | .ok r => r
  | .error _ =>
    match fallback with
    | .ok f => f
    | .error _ => previous

/-! ## Supporting lemmas -/

theorem orElseCell_none (a : Option ℚ) : orElseCell a none = a := by
  cases a <;> rfl

theorem orElseCell_idem (a b : Option ℚ) :
    orElseCell a (orElseCell a b) = orElseCell a b := by
  cases a <;> rfl

theorem mergeRow_noneRow (r : SeriesRow) : mergeRow r noneRow = r := by
  cases r
  simp [mergeRow, noneRow, orElseCell_none]

theorem mergeRow_absorb (r l : SeriesRow) :
    mergeRow r (mergeRow r l) = mergeRow r l := by
  cases r; cases l
  simp [mergeRow, orElseCell_idem]

theorem ffillRows_replicate (n : ℕ) (r last : SeriesRow) :
    ffillRows last (List.replicate n r) = List.replicate n (mergeRow r last) := by
  induction n generalizing last with
  | zero => rfl
  | succ n ih =>
    rw [List.replicate_succ, List.replicate_succ]
    show mergeRow r last :: ffillRows (mergeRow r last) (List.replicate n r) = _
    rw [ih (mergeRow r last), mergeRow_absorb]

theorem fillSeries_replicate (n : ℕ) (r : SeriesRow) :
    fillSeries (List.replicate n r) = List.replicate n r := by
  simp [fillSeries, ffillRows_replicate, mergeRow_noneRow]

theorem launch_preserves_invariant (t : SchedulerState)
    (ih : t.inFlight = if t.running then 1 else 0) :
    (launchBgValidation t).inFlight =
      if (launchBgValidation t).running then 1 else 0 := by
  by_cases hb : t.running <;> simp [launchBgValidation, hb] at ih ⊢ <;> omega

theorem finish_preserves_invariant (t : SchedulerState)
    (ih : t.inFlight = if t.running then 1 else 0) :
    (workerFinish t).inFlight = if (workerFinish t).running then 1 else 0 := by
  by_cases hb : t.running <;> simp [workerFinish, hb] at ih ⊢ <;> omega

/-- The scheduler invariant: the live-worker count mirrors the
`_validation_running` flag on every reachable state. -/
theorem sched_invariant {s : SchedulerState} (h : SchedReachable s) :
    s.inFlight = (if s.running then 1 else 0) := by
  induction h with
  | init => rfl
  | step _ hstep ih =>
    cases hstep with
    | trigger => exact launch_preserves_invariant _ ih
    | finish hpos => exact finish_preserves_invariant _ ih

/-! ## Claim theorems -/

/-- C9: `_get_alert_level` maps probability to severity with closed lower
bounds evaluated high to low: `classify(0.9) = EXTREME`,
`classify(0.8999) = HIGH`, `classify(0.5) = MODERATE`,
`classify(0.29) = NONE`, and for every probability in `[0, 1]`:
`≥ 0.90 → EXTREME`, `≥ 0.70 → HIGH`, `≥ 0.50 → MODERATE`, `≥ 0.30 → LOW`,
else `NONE`. -/
theorem alert_level_thresholds :
    getAlertLevel (9/10) = .EXTREME ∧
    getAlertLevel (8999/10000) = .HIGH ∧
    getAlertLevel (1/2) = .MODERATE ∧
    getAlertLevel (29/100) = .NONE ∧
    ∀ p : ℚ, 0 ≤ p → p ≤ 1 →
      ((9/10 ≤ p → getAlertLevel p = .EXTREME) ∧
       (7/10 ≤ p → p < 9/10 → getAlertLevel p = .HIGH) ∧
       (1/2 ≤ p → p < 7/10 → getAlertLevel p = .MODERATE) ∧
       (3/10 ≤ p → p < 1/2 → getAlertLevel p = .LOW) ∧
       (p < 3/10 → getAlertLevel p = .NONE)) := by
  have hgen : ∀ p : ℚ,
      (9/10 ≤ p → getAlertLevel p = .EXTREME) ∧
      (7/10 ≤ p → p < 9/10 → getAlertLevel p = .HIGH) ∧
      (1/2 ≤ p → p < 7/10 → getAlertLevel p = .MODERATE) ∧
      (3/10 ≤ p → p < 1/2 → getAlertLevel p = .LOW) ∧
      (p < 3/10 → getAlertLevel p = .NONE) := by
    intro p
    unfold getAlertLevel thresholdExtreme thresholdHigh thresholdModerate
      thresholdLow
    refine ⟨?_, ?_, ?_, ?_, ?_⟩ <;> intros <;> split_ifs <;>
      first | rfl | linarith
  refine ⟨(hgen _).1 (by norm_num), (hgen _).2.1 (by norm_num) (by norm_num),
    (hgen _).2.2.1 (by norm_num) (by norm_num),
    (hgen _).2.2.2.2 (by norm_num), fun p _ _ => hgen p⟩

/-- Witness for C9 at the boundary probability `1/2`. -/
theorem alert_level_thresholds_witness :
    (0:ℚ) ≤ 1/2 ∧ (1/2:ℚ) ≤ 1 ∧ (1/2:ℚ) ≤ 1/2 ∧ (1/2:ℚ) < 7/10 ∧
    getAlertLevel (1/2) = .MODERATE :=
  ⟨by norm_num, by norm_num, le_refl _, by norm_num,
    (alert_level_thresholds.2.2.2.2 (1/2) (by norm_num)
      (by norm_num)).2.2.1 (le_refl _) (by norm_num)⟩

/-- C6: a refresh trigger received while `_validation_running` is set is a
no-op (the state is unchanged and no worker thread starts), and on every
reachable scheduler state at most one validation worker is in flight. -/
theorem single_flight_trigger_noop :
    (∀ s : SchedulerState, s.running = true → launchBgValidation s = s) ∧
    (∀ s : SchedulerState, SchedReachable s → s.inFlight ≤ 1) := by
  constructor
  · intro s hs
    simp [launchBgValidation, hs]
  · intro s hs
    rw [sched_invariant hs]
    split <;> omega

/-- Witness for C6: the no-op at a concrete running state, and the bound at
the initial state. -/
theorem single_flight_trigger_noop_witness :
    launchBgValidation ⟨true, 1⟩ = ⟨true, 1⟩ ∧ initScheduler.inFlight ≤ 1 :=
  ⟨single_flight_trigger_noop.1 ⟨true, 1⟩ rfl,
   single_flight_trigger_noop.2 initScheduler SchedReachable.init⟩

/-- C5: the window assembler fails on an empty series with the
insufficient-data error (it raises instead of returning a window), and on a
series of a single row the pre-normalisation window is sixty copies of that
row, also after the forward/backward fill. -/
theorem assemble_empty_and_singleton :
    (∀ w : ℕ, prepareWindowRaw [] w = .error "No data available from DSCOVR") ∧
    (∀ r : SeriesRow, prepareWindowRaw [r] 60 = .ok (List.replicate 60 r)) := by
  constructor
  · intro w
    rfl
  · intro r
    show Except.ok (fillSeries _) = _
    have hdrop : List.drop ([r].length - 60) [r] = [r] := rfl
    rw [hdrop]
    rw [if_pos (show [r].length < 60 by norm_num)]
    have hlast : List.getLast? [r] = some r := rfl
    rw [hlast]
    have hrep : List.replicate (60 - [r].length) r ++ [r] =
        List.replicate 60 r := (List.replicate_succ' 59 r).symm
    rw [hrep, fillSeries_replicate]

theorem getLast?_append_singleton {α : Type} (l : List α) (a : α) :
    (l ++ [a]).getLast? = some a := by
  induction l with
  | nil => rfl
  | cons x xs ih =>
    rw [List.cons_append, List.getLast?_cons, ih]
    cases xs <;> rfl

/-- A short series whose single distinguishing cell is the speed channel. -/
def rowA : SeriesRow := ⟨some 1, none, none, none, none, none⟩

/-- A second row distinct from `rowA`. -/
def rowB : SeriesRow := ⟨some 2, none, none, none, none, none⟩

/-- C3 counterexample: on the two-row series `[rowA, rowB]` with window
size 3, `prepare_model_input` produces `[rowB, rowA, rowB]` — the padding
row is the LAST row `rowB` (`last_row = df_window.iloc[-1:]`), not the
earliest row `rowA` as the claim states, which would give
`[rowA, rowA, rowB]`. -/
theorem pad_counterexample :
    prepareWindowRaw [rowA, rowB] 3 = .ok [rowB, rowA, rowB] ∧
    prepareWindowRaw [rowA, rowB] 3 ≠
      .ok (fillSeries (List.replicate (3 - 2) rowA ++ [rowA, rowB])) := by
  constructor
  · rfl
  · intro h
    rw [show fillSeries (List.replicate (3 - 2) rowA ++ [rowA, rowB]) =
        [rowA, rowA, rowB] from rfl] at h
    have : [rowB, rowA, rowB] = [rowA, rowA, rowB] := by
      have := h
      rw [show prepareWindowRaw [rowA, rowB] 3 = .ok [rowB, rowA, rowB]
        from rfl] at this
      exact Except.ok.inj this
    simp [rowA, rowB] at this

/-- C3 (amended): on a series with between 1 and `windowSize - 1` rows,
`prepare_model_input` pads by prepending copies of the LATEST (most
recent) available row until the window length is reached (the source
comment says `Pad with last known values`). -/
theorem pad_prepends_latest_row (ys : List SeriesRow) (r : SeriesRow)
    (w : ℕ) (h : (ys ++ [r]).length < w) :
    prepareWindowRaw (ys ++ [r]) w =
      .ok (fillSeries
        (List.replicate (w - (ys ++ [r]).length) r ++ (ys ++ [r]))) := by
  have hz : (ys ++ [r]).length - w = 0 := Nat.sub_eq_zero_of_le (le_of_lt h)
  unfold prepareWindowRaw
  rw [if_neg (by simp)]
  simp only [hz, List.drop_zero]
  rw [if_pos h, getLast?_append_singleton]

/-- Witness for C3 (amended) on a one-row series and window size 2. -/
theorem pad_prepends_latest_row_witness :
    (([] : List SeriesRow) ++ [noneRow]).length < 2 ∧
    prepareWindowRaw (([] : List SeriesRow) ++ [noneRow]) 2 =
      .ok (fillSeries
        (List.replicate (2 - (([] : List SeriesRow) ++ [noneRow]).length)
          noneRow ++ (([] : List SeriesRow) ++ [noneRow]))) :=
  ⟨by simp, pad_prepends_latest_row [] noneRow 2 (by simp)⟩

/-! ### Cache freshness -/

/-- Whether lines 128-130 serve the key from cache at time `now`:
the key is present and its entry is younger than the TTL. -/
def cacheServes (c : TelemetryCache) (k : String) (now : ℕ) : Bool :=
  match cacheLookup c k with
  | some (_, ts) => decide (now - ts < cacheTTL)
  | none => false

theorem getRealtimeData_of_not_serves (c : TelemetryCache)
    (now days : ℕ) (f1 f7 : FetchData)
    (h : cacheServes c (cacheKey days) now = false) :
    getRealtimeData c now days f1 f7 =
      (let fetched := if days ≤ 1 then f1 else f7
       if fetched.plasma = [] ∧ fetched.mag = [] then ⟨[], c, true⟩
       else
         let df := alignSeries fetched.plasma fetched.mag
         ⟨df, (cacheKey days, df, now) :: c, true⟩) := by
  simp only [getRealtimeData]
  unfold cacheServes at h
  cases hl : cacheLookup c (cacheKey days) with
  | none => rfl
  | some e =>
    obtain ⟨df, ts⟩ := e
    rw [hl] at h
    have hlt : ¬(now - ts < cacheTTL) := by simpa using of_decide_eq_false h
    simp [hlt]

/-- An entry that is already stale stays stale at any later time. -/
theorem cacheServes_stale_mono (c : TelemetryCache) (k : String)
    (now1 now2 : ℕ) (h : cacheServes c k now1 = false) (hle : now1 ≤ now2) :
    cacheServes c k now2 = false := by
  unfold cacheServes at *
  cases hl : cacheLookup c k with
  | none => rfl
  | some e =>
    obtain ⟨df, ts⟩ := e
    rw [hl] at h
    have h1 : ¬(now1 - ts < cacheTTL) := of_decide_eq_false h
    have h2 : ¬(now2 - ts < cacheTTL) := by
      have := Nat.sub_le_sub_right hle ts
      omega
    simpa using h2

/-- C10: when both upstream tables are empty, `get_realtime_data` returns
the empty frame WITHOUT storing it (the cache is unchanged), so a later
call — at any later time, in particular within the TTL — fetches from
upstream again rather than serving the empty result from cache. -/
theorem empty_result_not_cached (c : TelemetryCache) (now1 now2 days : ℕ)
    (h1 : cacheServes c (cacheKey days) now1 = false)
    (hle : now1 ≤ now2) :
    getRealtimeData c now1 days ⟨[], []⟩ ⟨[], []⟩ = ⟨[], c, true⟩ ∧
    getRealtimeData c now2 days ⟨[], []⟩ ⟨[], []⟩ = ⟨[], c, true⟩ := by
  constructor
  · rw [getRealtimeData_of_not_serves c now1 days _ _ h1]
    split <;> rfl
  · rw [getRealtimeData_of_not_serves c now2 days _ _
      (cacheServes_stale_mono c (cacheKey days) now1 now2 h1 hle)]
    split <;> rfl

/-- Witness for C10 on the empty cache. -/
theorem empty_result_not_cached_witness :
    cacheServes [] (cacheKey 1) 0 = false ∧ (0 : ℕ) ≤ 7 ∧
    getRealtimeData [] 0 1 ⟨[], []⟩ ⟨[], []⟩ = ⟨[], [], true⟩ ∧
    getRealtimeData [] 7 1 ⟨[], []⟩ ⟨[], []⟩ = ⟨[], [], true⟩ :=
  ⟨rfl, by omega,
    (empty_result_not_cached [] 0 7 1 rfl (by omega)).1,
    (empty_result_not_cached [] 0 7 1 rfl (by omega)).2⟩

/-- C4 counterexample: with both upstream tables empty on every fetch (a
loader that consistently yields empty results, hence "no intervening
change"), two `get_realtime_data` calls within the TTL (at t=0 and t=60 of
a 300-second TTL) each invoke the upstream loader — twice in total, not
exactly once as the claim states, because the empty first result is never
cached. -/
theorem cache_idempotence_counterexample :
    (getRealtimeData [] 0 1 ⟨[], []⟩ ⟨[], []⟩).fetched = true ∧
    (getRealtimeData (getRealtimeData [] 0 1 ⟨[], []⟩ ⟨[], []⟩).cache
      60 1 ⟨[], []⟩ ⟨[], []⟩).fetched = true ∧
    (60 : ℕ) - 0 < cacheTTL :=
  ⟨rfl, rfl, by simp [cacheTTL]⟩

/-- C4 (amended): provided the first call actually yields a non-empty
result (at least one upstream table non-empty — empty results are never
cached), a second `get_realtime_data` call within the TTL returns the
bit-identical cached frame, leaves the cache unchanged, and does not
invoke the upstream loader, so the loader runs exactly once across the two
calls. -/
theorem cache_hit_within_ttl (c : TelemetryCache) (now1 now2 days : ℕ)
    (f : FetchData)
    (hmiss : cacheServes c (cacheKey days) now1 = false)
    (hne : ¬(f.plasma = [] ∧ f.mag = []))
    (httl : now2 - now1 < cacheTTL) :
    (getRealtimeData c now1 days f f).fetched = true ∧
    getRealtimeData (getRealtimeData c now1 days f f).cache now2 days f f =
      ⟨(getRealtimeData c now1 days f f).df,
       (getRealtimeData c now1 days f f).cache, false⟩ := by
  have h1 : getRealtimeData c now1 days f f =
      ⟨alignSeries f.plasma f.mag,
       (cacheKey days, alignSeries f.plasma f.mag, now1) :: c, true⟩ := by
    rw [getRealtimeData_of_not_serves c now1 days f f hmiss]
    simp only [ite_self]
    rw [if_neg hne]
  have h2 : cacheLookup
      ((cacheKey days, alignSeries f.plasma f.mag, now1) :: c)
      (cacheKey days) = some (alignSeries f.plasma f.mag, now1) := by
    simp [cacheLookup, List.find?]
  refine ⟨by rw [h1], ?_⟩
  rw [h1]
  simp only [getRealtimeData]
  rw [h2]
  simp [httl]

/-- A one-row plasma table used as a non-empty upstream fixture. -/
def plasmaSample : List (ℕ × PlasmaRow) := [(0, ⟨some 1, some 1, some 1⟩)]

/-- Witness for C4 (amended): one fetch at t=0, a cache hit at t=60. -/
theorem cache_hit_within_ttl_witness :
    cacheServes [] (cacheKey 1) 0 = false ∧
    ¬((FetchData.mk plasmaSample []).plasma = [] ∧
      (FetchData.mk plasmaSample []).mag = []) ∧
    (60 : ℕ) - 0 < cacheTTL ∧
    (getRealtimeData [] 0 1 ⟨plasmaSample, []⟩ ⟨plasmaSample, []⟩).fetched
      = true ∧
    getRealtimeData (getRealtimeData [] 0 1 ⟨plasmaSample, []⟩
        ⟨plasmaSample, []⟩).cache 60 1 ⟨plasmaSample, []⟩ ⟨plasmaSample, []⟩ =
      ⟨(getRealtimeData [] 0 1 ⟨plasmaSample, []⟩ ⟨plasmaSample, []⟩).df,
       (getRealtimeData [] 0 1 ⟨plasmaSample, []⟩ ⟨plasmaSample, []⟩).cache,
       false⟩ :=
  ⟨rfl, by simp [plasmaSample], by simp [cacheTTL],
    (cache_hit_within_ttl [] 0 60 1 ⟨plasmaSample, []⟩ rfl
      (by simp [plasmaSample]) (by simp [cacheTTL])).1,
    (cache_hit_within_ttl [] 0 60 1 ⟨plasmaSample, []⟩ rfl
      (by simp [plasmaSample]) (by simp [cacheTTL])).2⟩

theorem betaCell_eq_none (d t b : Option ℚ)
    (h : b = some 0 ∨ b = none ∨ d = none ∨ t = none) :
    betaCell d t b = none := by
  rcases h with rfl | rfl | rfl | rfl
  · cases d with
    | none => rfl
    | some d =>
      cases t with
      | none => rfl
      | some t =>
        simp only [betaCell, betaRaw, if_true]
        split_ifs <;> rfl
  · cases d <;> cases t <;> rfl
  · rfl
  · cases d <;> rfl

/-- Sample plasma table for the beta/forward-fill analysis: one full row at
t=0, no row at t=1. -/
def plasmaBetaEx : List (ℕ × PlasmaRow) := [(0, ⟨some 1, some 1, some 1⟩)]

/-- Sample magnetometer table: `bt = 1` at t=0 and `bt = 0` at t=1. -/
def magBetaEx : List (ℕ × MagRow) :=
  [(0, ⟨none, none, none, some 1⟩), (1, ⟨none, none, none, some 0⟩)]

/-- C8 counterexample: in the series RETURNED by `get_realtime_data` (i.e.
after the `ffill(limit=5)` of line 177), the row at t=1 has
`field_magnitude` (`bt`) equal to zero and `density`/`temperature` missing,
yet its `beta` cell is non-null: the forward fill copied the previous
row's beta value into it.  The claimed invariant holds only BEFORE the
forward fill. -/
theorem beta_ffill_counterexample :
    ((alignSeries plasmaBetaEx magBetaEx).getD 1 noneRow).bt = some 0 ∧
    ((alignSeries plasmaBetaEx magBetaEx).getD 1 noneRow).beta ≠ none := by
  refine ⟨rfl, ?_⟩
  intro h
  exact Option.noConfusion h

/-- C8 (amended): in the outer-joined series BEFORE the limit-5 forward
fill, `beta` is null in every row whose `bt` is zero or missing or whose
`density` or `temperature` is missing; and the computed beta value is
never a positive or negative infinity (infinities arising from the
division are replaced by NaN before the column is stored), so no ±inf ever
appears in the returned frame — though the subsequent forward fill may
copy an earlier finite beta into such a row. -/
theorem beta_null_guard :
    (∀ (plasma : List (ℕ × PlasmaRow)) (mag : List (ℕ × MagRow)),
      ∀ r ∈ joinSeries plasma mag,
        (r.bt = some 0 ∨ r.bt = none ∨ r.density = none ∨
          r.temperature = none) → r.beta = none) ∧
    (∀ d t b : Option ℚ,
      replaceInfWithNan (betaRaw d t b) ≠ .pinf ∧
      replaceInfWithNan (betaRaw d t b) ≠ .ninf) := by
  constructor
  · intro plasma mag r hr hcond
    obtain ⟨t, _, rfl⟩ := List.mem_map.1 hr
    exact betaCell_eq_none _ _ _ hcond
  · intro d t b
    cases d with
    | none => exact ⟨fun h => NFloat.noConfusion h, fun h => NFloat.noConfusion h⟩
    | some d =>
      cases t with
      | none => exact ⟨fun h => NFloat.noConfusion h, fun h => NFloat.noConfusion h⟩
      | some t =>
        cases b with
        | none => exact ⟨fun h => NFloat.noConfusion h, fun h => NFloat.noConfusion h⟩
        | some b =>
          simp only [betaRaw]
          split_ifs <;> simp [replaceInfWithNan]

/-- Witness for C8 (amended): the pre-fill row at t=1 of the sample join
has `bt = 0`, missing inputs, and a null beta; and the beta computation at
`(1, 1, 0)` yields no infinity. -/
theorem beta_null_guard_witness :
    joinedRowAt plasmaBetaEx magBetaEx 1 ∈ joinSeries plasmaBetaEx magBetaEx ∧
    (joinedRowAt plasmaBetaEx magBetaEx 1).bt = some 0 ∧
    (joinedRowAt plasmaBetaEx magBetaEx 1).beta = none ∧
    replaceInfWithNan (betaRaw (some 1) (some 1) (some 0)) ≠ .pinf := by
  have hmem : joinedRowAt plasmaBetaEx magBetaEx 1 ∈
      joinSeries plasmaBetaEx magBetaEx := by
    have hj : joinSeries plasmaBetaEx magBetaEx =
        [joinedRowAt plasmaBetaEx magBetaEx 0,
         joinedRowAt plasmaBetaEx magBetaEx 1] := rfl
    rw [hj]
    simp
  refine ⟨hmem, rfl, ?_, ?_⟩
  · exact beta_null_guard.1 plasmaBetaEx magBetaEx _ hmem (Or.inl rfl)
  · exact (beta_null_guard.2 (some 1) (some 1) (some 0)).1

/-! ### Validation bookkeeping lemmas -/

theorem countB_partition (pairs : List (Bool × Bool)) :
    countB (fun x => x.1 && x.2) pairs + countB (fun x => !x.1 && x.2) pairs +
      countB (fun x => !x.1 && !x.2) pairs +
      countB (fun x => x.1 && !x.2) pairs = pairs.length := by
  induction pairs with
  | nil => rfl
  | cons p rest ih =>
    obtain ⟨a, b⟩ := p
    cases a <;> cases b <;> simp [countB] <;> omega

theorem confusionCounts_sum (labels preds : List Bool)
    (h : labels.length = preds.length) :
    (confusionCounts labels preds).tp + (confusionCounts labels preds).fp +
      (confusionCounts labels preds).tn +
      (confusionCounts labels preds).fn = labels.length := by
  simp only [confusionCounts]
  rw [countB_partition (labels.zip preds), List.length_zip, h, min_self]

theorem validationLabels_length : validationLabels.length = 5996 := by
  rw [validationLabels, List.length_append, List.length_replicate,
    List.length_replicate]
  decide

theorem fallbackLabels_length : fallbackLabels.length = 2000 := by
  rw [fallbackLabels, List.length_append, List.length_replicate,
    List.length_replicate]
  decide

/-- C1: the claim holds on the normal path (`total_events_tested` is
`tp + fp + tn + fn`, the exact number of windows scored), but on the
fallback path `_compute_fallback_metrics` scores `len(fallbackLabels)`
= 2000 windows (`tp + fp + tn + fn = 2000`) while reporting
`total_events_tested = len(y_true) * 2 = 4000` — double the number of
windows scored, contradicting the claim and the audit requirement. -/
theorem validation_sample_size (probs probs2 : List ℚ)
    (resp : Option (List DonkiEvent))
    (h : probs.length = 2000)
    (h2 : probs2.length = validationLabels.length) :
    (runValidation resp probs2).totalEventsTested =
      (runValidation resp probs2).truePositives +
      (runValidation resp probs2).falsePositives +
      (runValidation resp probs2).trueNegatives +
      (runValidation resp probs2).falseNegatives ∧
    (runValidation resp probs2).totalEventsTested =
      validationLabels.length ∧
    (fallbackMetrics probs).truePositives +
      (fallbackMetrics probs).falsePositives +
      (fallbackMetrics probs).trueNegatives +
      (fallbackMetrics probs).falseNegatives = 2000 ∧
    fallbackLabels.length = 2000 ∧
    (fallbackMetrics probs).totalEventsTested = 4000 := by
  have hflen : fallbackLabels.length = 2000 := fallbackLabels_length
  have hfsum : (confusionCounts fallbackLabels (thresholdPreds probs)).tp +
      (confusionCounts fallbackLabels (thresholdPreds probs)).fp +
      (confusionCounts fallbackLabels (thresholdPreds probs)).tn +
      (confusionCounts fallbackLabels (thresholdPreds probs)).fn = 2000 := by
    rw [confusionCounts_sum _ _ (by simp [thresholdPreds, h, hflen]), hflen]
  have hvsum : (confusionCounts validationLabels (thresholdPreds probs2)).tp +
      (confusionCounts validationLabels (thresholdPreds probs2)).fp +
      (confusionCounts validationLabels (thresholdPreds probs2)).tn +
      (confusionCounts validationLabels (thresholdPreds probs2)).fn =
      validationLabels.length :=
    confusionCounts_sum _ _ (by simp [thresholdPreds, h2])
  refine ⟨rfl, ?_, ?_, hflen, ?_⟩
  · show (confusionCounts validationLabels (thresholdPreds probs2)).tp + _ + _ + _ = _
    exact hvsum
  · exact hfsum
  · show fallbackLabels.length * 2 = 4000
    rw [hflen]

/-- Witness for C1 at a concrete probability vector. -/
theorem validation_sample_size_witness :
    (List.replicate 2000 (1 : ℚ)).length = 2000 ∧
    (List.replicate 5996 (1 : ℚ)).length = validationLabels.length ∧
    (fallbackMetrics (List.replicate 2000 (1 : ℚ))).totalEventsTested = 4000 :=
  ⟨List.length_replicate 2000 (1 : ℚ),
    by rw [List.length_replicate, validationLabels_length],
    (validation_sample_size (List.replicate 2000 (1 : ℚ))
      (List.replicate 5996 (1 : ℚ)) none (List.length_replicate 2000 (1 : ℚ))
      (by rw [List.length_replicate, validationLabels_length])).2.2.2.2⟩

/-- C2: the failing input is an unreachable DONKI endpoint.  The handler in
`_fetch_donki_cme_events` absorbs the failure into an empty event list, so
`_run_validation` does NOT fail over: it completes the NORMAL path — the
full-size era-weighted scenario set (5996 windows, not the 2000-window
fixed fallback set) with the normal provenance note and
`donki_live_events = 0`.  The fallback set with its distinct note is used
only when the validation run itself raises; in every case the worker
publishes a report and no caller-visible hard failure occurs. -/
theorem donki_unreachable_no_fallback (probs : List ℚ) (e : String)
    (fb : Except String AccuracyReport) (prev : AccuracyReport) :
    fetchDonkiCmeEvents none = [] ∧
    (runValidation none probs).donkiLiveEvents = 0 ∧
    (runValidation none probs).note = validationNote ∧
    validationNote ≠ fallbackNote ∧
    bgValidationWorker (.ok (runValidation none probs)) fb prev =
      runValidation none probs ∧
    bgValidationWorker (.error e) (.ok (fallbackMetrics probs)) prev =
      fallbackMetrics probs ∧
    (fallbackMetrics probs).note = fallbackNote ∧
    validationLabels.length = 5996 ∧
    fallbackLabels.length = 2000 := by
  exact ⟨rfl, rfl, rfl, by decide, rfl, rfl, rfl, validationLabels_length,
    fallbackLabels_length⟩

/-! ### AUC on perfectly separable data -/

theorem countB_eq_zero {α : Type} (p : α → Bool) (l : List α) :
    countB p l = 0 ↔ ∀ a ∈ l, p a = false := by
  induction l with
  | nil => simp [countB]
  | cons x rest ih =>
    cases hx : p x <;> simp [countB, hx, ih]

theorem countB_pos_exists {α : Type} (p : α → Bool) (l : List α)
    (h : 0 < countB p l) : ∃ a ∈ l, p a = true := by
  by_contra hc
  push_neg at hc
  have : countB p l = 0 := (countB_eq_zero p l).2 (by
    intro a ha
    cases hpa : p a
    · rfl
    · exact absurd hpa (hc a ha))
  omega

theorem countB_congr {α : Type} {p q : α → Bool} {l : List α}
    (h : ∀ a ∈ l, p a = q a) : countB p l = countB q l := by
  induction l with
  | nil => rfl
  | cons x rest ih =>
    simp only [countB, h x (List.mem_cons_self x rest),
      ih (fun a ha => h a (List.mem_cons_of_mem x ha))]

theorem exists_min_mem : ∀ {l : List ℚ}, l ≠ [] → ∃ m ∈ l, ∀ y ∈ l, m ≤ y := by
  intro l
  induction l with
  | nil => intro h; exact absurd rfl h
  | cons a rest ih =>
    intro _
    by_cases hr : rest = []
    · subst hr
      refine ⟨a, List.mem_cons_self a _, ?_⟩
      intro y hy
      have : y = a := by simpa using hy
      subst this
      exact le_refl y
    · obtain ⟨m, hm, hmin⟩ := ih hr
      by_cases hab : a ≤ m
      · refine ⟨a, List.mem_cons_self a _, ?_⟩
        intro y hy
        rcases List.mem_cons.1 hy with h1 | hy'
        · rw [h1]
        · exact le_trans hab (hmin y hy')
      · refine ⟨m, List.mem_cons_of_mem a hm, ?_⟩
        intro y hy
        rcases List.mem_cons.1 hy with h1 | hy'
        · rw [h1]
          exact le_of_not_le hab
        · exact hmin y hy'

/-- Invariant-preservation along the threshold sweep: once the minimum
positive score has been processed, `tpr_prev` stays 1 and the accumulated
trapezoid area equals `fpr_prev`; before that, no false positive has been
counted and the area is still zero. -/
theorem aucSweep_perfect (pts : List (Bool × ℚ)) (minpos : ℚ)
    (hp : (nPos pts : ℚ) ≠ 0)
    (hF1 : ∀ θ, minpos ≤ θ → fpAt pts θ = 0)
    (hF2 : ∀ θ, θ ≤ minpos → tpAt pts θ = nPos pts) :
    ∀ (L : List ℚ), List.Pairwise (fun a b : ℚ => b ≤ a) L →
      ∀ st : SweepState,
      ((st.fpr = 0 ∧ st.auc = 0 ∧ minpos ∈ L) ∨
        (st.tpr = 1 ∧ st.auc = st.fpr ∧ ∀ θ ∈ L, θ ≤ minpos)) →
      (aucSweep pts L st).tpr = 1 ∧
        (aucSweep pts L st).auc = (aucSweep pts L st).fpr := by
  intro L
  induction L with
  | nil =>
    intro _ st hinv
    rcases hinv with ⟨_, _, hmem⟩ | ⟨h1, h2, _⟩
    · exact absurd hmem (List.not_mem_nil _)
    · exact ⟨h1, h2⟩
  | cons θ rest ih =>
    intro hsort st hinv
    obtain ⟨hhead, hrest⟩ := List.pairwise_cons.1 hsort
    rw [show aucSweep pts (θ :: rest) st =
      aucSweep pts rest
        ⟨(tpAt pts θ : ℚ) / (nPos pts : ℚ),
         (fpAt pts θ : ℚ) / (nNeg pts : ℚ),
         st.auc + ((fpAt pts θ : ℚ) / (nNeg pts : ℚ) - st.fpr) *
           ((tpAt pts θ : ℚ) / (nPos pts : ℚ) + st.tpr) / 2⟩ from rfl]
    apply ih hrest
    rcases hinv with ⟨hfpr0, hauc0, hmem⟩ | ⟨htpr1, haucfpr, hbound⟩
    · rcases List.mem_cons.1 hmem with heq | hmem'
      · -- the head threshold is the minimum positive score: switch phases
        subst heq
        have hf : fpAt pts minpos = 0 := hF1 minpos le_rfl
        have ht : tpAt pts minpos = nPos pts := hF2 minpos le_rfl
        refine Or.inr ⟨?_, ?_, ?_⟩
        · show (tpAt pts minpos : ℚ) / (nPos pts : ℚ) = 1
          rw [ht]
          exact div_self hp
        · show st.auc + _ * _ / 2 = (fpAt pts minpos : ℚ) / (nNeg pts : ℚ)
          rw [hf, hfpr0, hauc0]
          push_cast
          ring
        · exact fun b hb => hhead b hb
      · -- still above every negative score: no area accumulates
        have hf : fpAt pts θ = 0 := hF1 θ (hhead minpos hmem')
        refine Or.inl ⟨?_, ?_, hmem'⟩
        · show (fpAt pts θ : ℚ) / (nNeg pts : ℚ) = 0
          rw [hf]
          push_cast
          ring
        · show st.auc + _ * _ / 2 = 0
          rw [hf, hfpr0, hauc0]
          push_cast
          ring
    · -- past the minimum positive score: tpr stays 1, area tracks fpr
      have ht : tpAt pts θ = nPos pts := hF2 θ (hbound θ (List.mem_cons_self θ rest))
      have htpr : (tpAt pts θ : ℚ) / (nPos pts : ℚ) = 1 := by
        rw [ht]
        exact div_self hp
      refine Or.inr ⟨htpr, ?_, fun b hb => hbound b (List.mem_cons_of_mem θ hb)⟩
      show st.auc + _ * _ / 2 = (fpAt pts θ : ℚ) / (nNeg pts : ℚ)
      rw [htpr, htpr1, haucfpr]
      ring

/-- C7: for every label/score set with at least one positive and one
negative in which every positive score strictly exceeds every negative
score, `_compute_auc` returns exactly 1. -/
theorem auc_perfect_separation (pts : List (Bool × ℚ))
    (hp : 0 < nPos pts) (hn : 0 < nNeg pts)
    (hsep : ∀ x ∈ pts, x.1 = true → ∀ y ∈ pts, y.1 = false → y.2 < x.2) :
    computeAuc pts = 1 := by
  -- the minimum positive score
  obtain ⟨x0, hx0mem, hx0⟩ := countB_pos_exists (fun x => x.1) pts
    (show 0 < countB (fun x : Bool × ℚ => x.1) pts from hp)
  have hposne : (pts.filter (fun x => x.1)).map Prod.snd ≠ [] := by
    have : x0 ∈ pts.filter (fun x => x.1) := List.mem_filter.2 ⟨hx0mem, hx0⟩
    intro hcon
    rw [List.map_eq_nil_iff] at hcon
    rw [hcon] at this
    exact List.not_mem_nil x0 this
  obtain ⟨minpos, hmm, hmin⟩ := exists_min_mem hposne
  obtain ⟨xstar, hxstar_f, hxstar_snd⟩ := List.mem_map.1 hmm
  obtain ⟨hxstar_mem, hxstar_pos⟩ := List.mem_filter.1 hxstar_f
  have hposc : ∀ x ∈ pts, x.1 = true → minpos ≤ x.2 := by
    intro x hx hx1
    exact hmin _ (List.mem_map.2 ⟨x, List.mem_filter.2 ⟨hx, hx1⟩, rfl⟩)
  have hnegc : ∀ y ∈ pts, y.1 = false → y.2 < minpos := by
    intro y hy hy0
    rw [← hxstar_snd]
    exact hsep xstar hxstar_mem hxstar_pos y hy hy0
  have hF1 : ∀ θ, minpos ≤ θ → fpAt pts θ = 0 := by
    intro θ hθ
    unfold fpAt
    refine (countB_eq_zero _ _).2 ?_
    intro a ha
    cases ha1 : a.1 with
    | true => simp [ha1]
    | false =>
      simp only [ha1, Bool.not_false, Bool.true_and]
      exact decide_eq_false (not_le.mpr (lt_of_lt_of_le (hnegc a ha ha1) hθ))
  have hF2 : ∀ θ, θ ≤ minpos → tpAt pts θ = nPos pts := by
    intro θ hθ
    unfold tpAt nPos
    refine countB_congr ?_
    intro a ha
    cases ha1 : a.1 with
    | false => simp [ha1]
    | true =>
      simp only [ha1, Bool.true_and]
      exact decide_eq_true (le_trans hθ (hposc a ha ha1))
  have hsorted : List.Pairwise (fun a b : ℚ => b ≤ a) (aucThresholds pts) := by
    have h1 : List.Sorted (· ≤ ·)
        (List.insertionSort (· ≤ ·) ((pts.map Prod.snd).dedup)) :=
      List.sorted_insertionSort _ _
    exact List.pairwise_reverse.2 h1
  have hmem : minpos ∈ aucThresholds pts := by
    have h0 : minpos ∈ pts.map Prod.snd := by
      exact List.mem_map.2 ⟨xstar, hxstar_mem, hxstar_snd⟩
    have h1 : minpos ∈ (pts.map Prod.snd).dedup := List.mem_dedup.2 h0
    have h2 : minpos ∈ List.insertionSort (· ≤ ·) ((pts.map Prod.snd).dedup) :=
      ((List.perm_insertionSort _ _).mem_iff).2 h1
    exact List.mem_reverse.2 h2
  have hp' : (nPos pts : ℚ) ≠ 0 := by exact_mod_cast hp.ne'
  obtain ⟨htpr, hauc⟩ := aucSweep_perfect pts minpos hp' hF1 hF2
    (aucThresholds pts) hsorted ⟨0, 0, 0⟩ (Or.inl ⟨rfl, rfl, hmem⟩)
  simp only [computeAuc]
  rw [if_neg (by push_neg; exact ⟨hp.ne', hn.ne'⟩)]
  rw [hauc, htpr]
  ring

/-- Witness for C7 on a two-point perfectly separated score set. -/
theorem auc_perfect_separation_witness :
    0 < nPos [(true, (1 : ℚ)), (false, 0)] ∧
    0 < nNeg [(true, (1 : ℚ)), (false, 0)] ∧
    computeAuc [(true, (1 : ℚ)), (false, 0)] = 1 :=
  ⟨by decide, by decide,
    auc_perfect_separation [(true, (1 : ℚ)), (false, 0)]
      (by decide) (by decide) (by decide)⟩

end OrbitBharat
